import Mathlib

/-!
# Verification of the `speechtoipa` transcription pipeline

A shallow embedding of `speechtoipa/pipeline.py` (language-code resolver,
phonemization adapter, segment aggregation, pipeline orchestrator, result
records and their JSON serialization), together with theorems settling the
spec's testable properties.

External collaborators (the faster-whisper recognition engine and the
phonemizer/espeak backend) are modelled as function parameters, so that
their invocation counts are observable; filesystem existence is modelled
as a predicate on path strings.  Python `float` values are modelled as
exact decimal numbers (`PyFloat`): Python's `repr`/`json` round-trips
floats exactly, and the decimal model captures that exactness.
-/

namespace SpeechToIpa

/-! ## Python string primitives

The pipeline uses `str.lower()`, `str.strip()`, `str.replace("_", "-")`,
`str.split("-", 1)` and `" ".join(...)`.  They are embedded over the
character list of a `String`.  `lower`/`strip` are restricted to the ASCII
ranges that the pipeline's language codes and texts exercise. -/

/-- ASCII whitespace stripped by Python's `str.strip()`. -/
def isPySpace (c : Char) : Bool :=
  c = ' ' || c = '\t' || c = '\n' || c = '\r' || c = '\x0b' || c = '\x0c'

/-- `str.lower()` (ASCII). -/
def pyLower (s : String) : String :=
  ⟨s.data.map Char.toLower⟩

/-- `l` with leading and trailing Python whitespace removed. -/
def stripList (l : List Char) : List Char :=
  ((l.dropWhile isPySpace).reverse.dropWhile isPySpace).reverse

/-- `str.strip()`. -/
def pyStrip (s : String) : String :=
  ⟨stripList s.data⟩

/-- `str.replace("_", "-")` (single-character replacement is a map). -/
def pyReplaceUnderscore (s : String) : String :=
  ⟨s.data.map (fun c => if c = '_' then '-' else c)⟩

/-- `sep.join(parts)`. -/
def pyJoin (sep : String) : List String → String
  | [] => ""
  | [x] => x
  | x :: y :: xs => x ++ sep ++ pyJoin sep (y :: xs)

/-- `s.split("-", 1)[0]`: the prefix before the first hyphen. -/
def baseSubtag (s : String) : String :=
  ⟨s.data.takeWhile (fun c => c ≠ '-')⟩

/-! ## Language-code resolver (`pipeline.py` lines 19–90) -/

/-- The static `_ESPEAK_LANG_MAP` table, in source order. -/
def _ESPEAK_LANG_MAP : List (String × String) :=
  [("af", "af"), ("ar", "ar"), ("bn", "bn"), ("cs", "cs"), ("da", "da"),
   ("de", "de"), ("el", "el"), ("en", "en-us"), ("en-us", "en-us"),
   ("en-gb", "en-gb"), ("es", "es"), ("fi", "fi"), ("fr", "fr-fr"),
   ("gu", "gu"), ("hi", "hi"), ("hu", "hu"), ("id", "id"), ("it", "it"),
   ("ja", "ja"), ("ko", "ko"), ("mr", "mr"), ("nb", "nb"), ("nl", "nl"),
   ("pl", "pl"), ("pt", "pt-br"), ("pt-br", "pt-br"), ("pt-pt", "pt"),
   ("ro", "ro"), ("ru", "ru"), ("sv", "sv"), ("ta", "ta"), ("te", "te"),
   ("th", "th"), ("tr", "tr"), ("uk", "uk"), ("ur", "ur"), ("vi", "vi"),
   ("zh", "zh"), ("zh-cn", "zh"), ("zh-tw", "zh")]

/-- `code.lower().strip().replace("_", "-")`, the body of
`_normalise_lang_code` on a present code. -/
def pyNormalise (code : String) : String :=
  pyReplaceUnderscore (pyStrip (pyLower code))

/-- `_normalise_lang_code` (`pipeline.py` lines 65–68). -/
def _normalise_lang_code : Option String → Option String
  | none => none
  | some code => some (pyNormalise code)

/-- `_resolve_espeak_language` (`pipeline.py` lines 71–90).  `None` is
`none`; Python's falsy test `if not language_hint` accepts both `None`
and `""`. -/
def _resolve_espeak_language (language_hint : Option String) : String :=
  match language_hint with
  | none => "en-us"
  | some hint =>
    if hint = "" then "en-us"
    else
      match _normalise_lang_code (some hint) with
      | none => "en-us"
      | some normalised =>
        if normalised = "" then "en-us"
        else
          match List.lookup normalised _ESPEAK_LANG_MAP with
          | some mapped => mapped
          | none =>
            if normalised.data.contains '-' then
              match List.lookup (baseSubtag normalised) _ESPEAK_LANG_MAP with
              | some mapped => mapped
              | none => normalised
            else normalised

/-! ## Result records (`pipeline.py` lines 93–129)

Python `float` fields are modelled by `PyFloat`, an exact decimal
`mant * 10 ^ exp10`; `Path` fields by the path string. -/

/-- Exact decimal model of a Python `float` (whose `repr`, used by
`json`, round-trips the value exactly). -/
structure PyFloat where
  mant : Int
  exp10 : Int
deriving DecidableEq, Repr

/-- `SegmentResult` (`end` is a Lean keyword, hence `end_`). -/
structure SegmentResult where
  start : PyFloat
  end_ : PyFloat
  text : String
  ipa : String
  avg_logprob : Option PyFloat
  no_speech_prob : Option PyFloat
deriving DecidableEq, Repr

/-- `TranscriptionResult`. -/
structure TranscriptionResult where
  audio_path : String
  text : String
  ipa : String
  segments : List SegmentResult
  language : String
  language_confidence : Option PyFloat
  duration : Option PyFloat
  model_size : String
  ipa_language : String
deriving DecidableEq, Repr

/-! ## Phonemization adapter (`pipeline.py` lines 62, 132–150) -/

/-- `_PUNCTUATION` (`pipeline.py` line 62). -/
def _PUNCTUATION : String := ";:,.!?¡¿—…\"«»“”()[]\x7b\x7d"

/-- The domain error raised by `_phonemize_text`: the formatted message
and the preserved underlying cause (`raise ... from exc`). -/
structure PhonemizeError where
  message : String
  cause : String
deriving DecidableEq, Repr

/-- A phonemizer backend: `phonemize(text, language=…, backend="espeak",
strip=True, preserve_punctuation=True, with_stress=True,
punctuation_marks=_PUNCTUATION)` abstracted as a function of the varying
arguments (text, language code, punctuation marks), returning either the
IPA string or a `RuntimeError` message. -/
def Backend : Type := String → String → String → Except String String

/-- `_phonemize_text` (`pipeline.py` lines 132–150), instrumented with the
number of backend invocations it performs. -/
def _phonemize_text (backend : Backend) (text : String) (ipa_language : String) :
    Except PhonemizeError String × Nat :=
  if pyStrip text = "" then (Except.ok "", 0)
  else
    match backend text ipa_language _PUNCTUATION with
    | Except.ok result => (Except.ok result, 1)
    | Except.error exc =>
      (Except.error
        { message := "Failed to phonemize text. Ensure espeak-ng is installed and the language '"
            ++ ipa_language ++ "' is supported."
          cause := exc }, 1)

/-! ## Pipeline orchestrator (`pipeline.py` lines 153–218) -/

/-- One raw segment from the recognizer's lazy sequence. -/
structure RawSegment where
  start : PyFloat
  end_ : PyFloat
  text : String
  avg_logprob : Option PyFloat
  no_speech_prob : Option PyFloat
deriving DecidableEq, Repr

/-- The recognizer's run-level metadata (`info`). -/
structure RecInfo where
  language : Option String
  language_probability : Option PyFloat
  duration : Option PyFloat
deriving DecidableEq, Repr

/-- The recognizer's output: the raw segment sequence plus `info`. -/
structure RecOutput where
  segments : List RawSegment
  info : RecInfo
deriving DecidableEq, Repr

/-- The recognition engine (`WhisperModel(model_size, device=…,
compute_type=…)` followed by `model.transcribe(path, language=…,
beam_size=1, best_of=1, vad_filter=…, temperature=0.0)`), abstracted as a
function of the varying arguments: model size, device, compute type,
audio path, language hint, VAD flag. -/
def Engine : Type :=
  String → String → String → String → Option String → Bool → RecOutput

/-- Python's `a or b` on an optional string: `b` when `a` is `None` or
empty. -/
def pyOrString (a : Option String) (b : String) : String :=
  match a with
  | none => b
  | some s => if s = "" then b else s

/-- Step 2 of the orchestrator (`pipeline.py` lines 169–170): default the
compute type to `"int8"` on CPU and `"auto"` otherwise. -/
def selectComputeType (device : String) (compute_type : Option String) : String :=
  match compute_type with
  | some c => c
  | none => if device = "cpu" then "int8" else "auto"

/-- The per-segment loop of `transcribe_audio_to_ipa` (`pipeline.py`
lines 185–203): trim, skip empty, phonemize, accumulate the segment
records and the non-empty texts, both in input order. -/
def processSegments (backend : Backend) (ipa_code : String) :
    List RawSegment → Except PhonemizeError (List SegmentResult × List String)
  | [] => Except.ok ([], [])
  | seg :: rest =>
    let segment_text := pyStrip seg.text
    if segment_text = "" then processSegments backend ipa_code rest
    else
      match (_phonemize_text backend segment_text ipa_code).1 with
      | Except.error e => Except.error e
      | Except.ok segment_ipa =>
        match processSegments backend ipa_code rest with
        | Except.error e => Except.error e
        | Except.ok (segs, parts) =>
          Except.ok
            ({ start := seg.start, end_ := seg.end_, text := segment_text,
               ipa := segment_ipa, avg_logprob := seg.avg_logprob,
               no_speech_prob := seg.no_speech_prob } :: segs,
             segment_text :: parts)

/-- Errors the orchestrator can raise: `FileNotFoundError` with its
message, or the phonemization `RuntimeError`. -/
inductive PipelineError where
  | fileNotFound (message : String)
  | phonemize (e : PhonemizeError)
deriving DecidableEq, Repr

/-- `transcribe_audio_to_ipa` (`pipeline.py` lines 153–218).  `fsExists`
models `Path.exists`; the second component counts how many times the
recognition engine was instantiated-and-invoked (a spy on `engine`). -/
def transcribe_audio_to_ipa (fsExists : String → Bool) (engine : Engine)
    (backend : Backend) (audio_path : String) (model_size : String)
    (language : Option String) (ipa_language : Option String)
    (device : String) (compute_type : Option String) (vad_filter : Bool) :
    Except PipelineError TranscriptionResult × Nat :=
  if !(fsExists audio_path) then
    (Except.error (PipelineError.fileNotFound ("Audio file not found: " ++ audio_path)), 0)
  else
    let computeType := selectComputeType device compute_type
    let out := engine model_size device computeType audio_path language vad_filter
    let recognised_language := pyOrString language (pyOrString out.info.language "")
    let ipa_code :=
      pyOrString ipa_language (_resolve_espeak_language (some recognised_language))
    match processSegments backend ipa_code out.segments with
    | Except.error e => (Except.error (PipelineError.phonemize e), 1)
    | Except.ok (segs, parts) =>
      let full_text := pyStrip (pyJoin " " parts)
      match
        (if full_text ≠ "" then (_phonemize_text backend full_text ipa_code).1
         else Except.ok "") with
      | Except.error e => (Except.error (PipelineError.phonemize e), 1)
      | Except.ok full_ipa =>
        (Except.ok
          { audio_path := audio_path, text := full_text, ipa := full_ipa,
            segments := segs, language := recognised_language,
            language_confidence := out.info.language_probability,
            duration := out.info.duration, model_size := model_size,
            ipa_language := ipa_code }, 1)

/-! ## JSON serialization (`pipeline.py` lines 104–105, 122–129)

`to_dict` builds the structured mapping (`dataclasses.asdict` with the
path rendered as a string) and `to_json` renders it with
`json.dumps(..., ensure_ascii=False)`.  The model serializes compactly
(no indentation: indentation only inserts inter-token whitespace and
changes no value) and numbers in exact `<mantissa>e<exponent>` decimal
notation, which is the exactness guarantee of Python's float `repr`. -/

/-- Decimal digit characters. -/
def digitChar (n : Nat) : Char :=
  match n with
  | 0 => '0' | 1 => '1' | 2 => '2' | 3 => '3' | 4 => '4'
  | 5 => '5' | 6 => '6' | 7 => '7' | 8 => '8' | _ => '9'

/-- Numeric value of a decimal digit character. -/
def digitVal (c : Char) : Nat := c.toNat - 48

/-- Hexadecimal digit characters (lowercase, as Python emits them). -/
def hexChar (n : Nat) : Char :=
  match n with
  | 0 => '0' | 1 => '1' | 2 => '2' | 3 => '3' | 4 => '4'
  | 5 => '5' | 6 => '6' | 7 => '7' | 8 => '8' | 9 => '9'
  | 10 => 'a' | 11 => 'b' | 12 => 'c' | 13 => 'd' | 14 => 'e' | _ => 'f'

/-- Value of a hexadecimal digit character. -/
def hexVal (c : Char) : Option Nat :=
  if c = '0' then some 0 else if c = '1' then some 1
  else if c = '2' then some 2 else if c = '3' then some 3
  else if c = '4' then some 4 else if c = '5' then some 5
  else if c = '6' then some 6 else if c = '7' then some 7
  else if c = '8' then some 8 else if c = '9' then some 9
  else if c = 'a' then some 10 else if c = 'b' then some 11
  else if c = 'c' then some 12 else if c = 'd' then some 13
  else if c = 'e' then some 14 else if c = 'f' then some 15
  else none

/-- Big-endian decimal value of a digit string. -/
def digitsToNat (ds : List Char) : Nat :=
  ds.foldl (fun acc c => 10 * acc + digitVal c) 0

/-- Little-endian digits of `n` (empty for `0`), with enough fuel. -/
def natCharsAux : Nat → Nat → List Char
  | 0, _ => []
  | fuel + 1, n => if n = 0 then [] else digitChar (n % 10) :: natCharsAux fuel (n / 10)

/-- Decimal digit string of a natural number. -/
def natChars (n : Nat) : List Char :=
  if n = 0 then ['0'] else (natCharsAux n n).reverse

/-- Decimal digit string of an integer, with a leading minus sign when
negative. -/
def intChars (i : Int) : List Char :=
  if i < 0 then '-' :: natChars i.natAbs else natChars i.natAbs

/-- A JSON value.  Numbers are exact decimals (`PyFloat`). -/
inductive Json where
  | null
  | str (s : String)
  | num (v : PyFloat)
  | arr (items : List Json)
  | obj (fields : List (String × Json))
deriving Repr

/-- JSON escaping of one character under `ensure_ascii=False`: only the
quote, the backslash and control characters are escaped; everything else
(all non-ASCII included) is emitted literally. -/
def escapeChar (c : Char) : List Char :=
  if c = '"' then ['\\', '"']
  else if c = '\\' then ['\\', '\\']
  else if c = '\n' then ['\\', 'n']
  else if c = '\t' then ['\\', 't']
  else if c = '\r' then ['\\', 'r']
  else if c = '\x08' then ['\\', 'b']
  else if c = '\x0c' then ['\\', 'f']
  else if c.toNat < 32 then
    ['\\', 'u', '0', '0', hexChar (c.toNat / 16), hexChar (c.toNat % 16)]
  else [c]

/-- JSON escaping of a character list. -/
def escapeList : List Char → List Char
  | [] => []
  | c :: rest => escapeChar c ++ escapeList rest

/-- Serialization of a JSON number: `<mantissa>e<exponent>`. -/
def serializeNum (v : PyFloat) : List Char :=
  intChars v.mant ++ 'e' :: intChars v.exp10

mutual

/-- Compact serialization of a JSON value. -/
def serializeJson : Json → List Char
  | Json.null => ['n', 'u', 'l', 'l']
  | Json.str s => '"' :: (escapeList s.data ++ ['"'])
  | Json.num v => serializeNum v
  | Json.arr [] => ['[', ']']
  | Json.arr (j :: rest) => '[' :: (serializeItems (j :: rest) ++ [']'])
  | Json.obj [] => ['\x7b', '\x7d']
  | Json.obj (f :: rest) => '\x7b' :: (serializeFields (f :: rest) ++ ['\x7d'])

/-- Comma-separated serialization of array items. -/
def serializeItems : List Json → List Char
  | [] => []
  | [j] => serializeJson j
  | j :: j' :: rest => serializeJson j ++ ',' :: serializeItems (j' :: rest)

/-- Comma-separated serialization of object fields (`"key":value`). -/
def serializeFields : List (String × Json) → List Char
  | [] => []
  | [(k, j)] => '"' :: (escapeList k.data ++ ('"' :: ':' :: serializeJson j))
  | (k, j) :: f :: rest =>
    ('"' :: (escapeList k.data ++ ('"' :: ':' :: serializeJson j))) ++
      ',' :: serializeFields (f :: rest)

end

/-- Prepends a character to the string being accumulated by
`parseStringBody`. -/
def consHelp (c : Char) : Option (List Char × List Char) → Option (List Char × List Char)
  | some (l, r) => some (c :: l, r)
  | none => none

/-- The single-character escapes (`\" \\ \n \t \r \b \f`). -/
def simpleUnescape (e : Char) : Option Char :=
  if e = '"' then some '"'
  else if e = '\\' then some '\\'
  else if e = 'n' then some '\n'
  else if e = 't' then some '\t'
  else if e = 'r' then some '\r'
  else if e = 'b' then some '\x08'
  else if e = 'f' then some '\x0c'
  else none

/-- Parses the body of a JSON string after the opening quote, returning
the unescaped characters and the input after the closing quote.  The
fuel bounds the number of produced characters; each step consumes at
least one input character. -/
def parseStringBody : Nat → List Char → Option (List Char × List Char)
  | 0, _ => none
  | fuel + 1, cs =>
    match cs with
    | [] => none
    | c :: rest =>
      if c = '"' then some ([], rest)
      else if c = '\\' then
        match rest with
        | [] => none
        | e :: rest' =>
          if e = 'u' then
            match rest' with
            | h1 :: h2 :: h3 :: h4 :: rest2 =>
              match hexVal h1, hexVal h2, hexVal h3, hexVal h4 with
              | some a, some b, some c2, some d =>
                consHelp (Char.ofNat (((a * 16 + b) * 16 + c2) * 16 + d))
                  (parseStringBody fuel rest2)
              | _, _, _, _ => none
            | _ => none
          else
            match simpleUnescape e with
            | some u => consHelp u (parseStringBody fuel rest')
            | none => none
      else consHelp c (parseStringBody fuel rest)

/-- Consumes an optional leading minus sign. -/
def parseSign (cs : List Char) : Bool × List Char :=
  match cs with
  | [] => (false, [])
  | c :: rest => if c = '-' then (true, rest) else (false, cs)

/-- Combines a sign and a magnitude into an integer. -/
def intOfParts (neg : Bool) (n : Nat) : Int :=
  if neg then -(n : Int) else (n : Int)

/-- Parses a signed decimal integer (sign, then a non-empty digit run). -/
def readInt (cs : List Char) : Option (Int × List Char) :=
  let sign := parseSign cs
  let ds := sign.2.takeWhile Char.isDigit
  let cs2 := sign.2.dropWhile Char.isDigit
  if ds = [] then none
  else some (intOfParts sign.1 (digitsToNat ds), cs2)

/-- Parses a JSON number in the `<mantissa>e<exponent>` form the
serializer emits. -/
def parseNum (cs : List Char) : Option (Json × List Char) :=
  match readInt cs with
  | none => none
  | some (m, cs2) =>
    match cs2 with
    | [] => none
    | e :: cs3 =>
      if e = 'e' then
        match readInt cs3 with
        | none => none
        | some (ex, cs5) => some (Json.num ⟨m, ex⟩, cs5)
      else none

/-- Parses the tail of the `null` literal. -/
def parseNull (rest : List Char) : Option (Json × List Char) :=
  match rest with
  | 'u' :: 'l' :: 'l' :: rest' => some (Json.null, rest')
  | _ => none

/-- Wraps a parsed string body as a JSON string value. -/
def strResult : Option (List Char × List Char) → Option (Json × List Char)
  | some (l, rest') => some (Json.str ⟨l⟩, rest')
  | none => none

/-- Wraps parsed array items as a JSON array value. -/
def arrResult : Option (List Json × List Char) → Option (Json × List Char)
  | some (l, rest') => some (Json.arr l, rest')
  | none => none

/-- Wraps parsed object fields as a JSON object value. -/
def objResult : Option (List (String × Json) × List Char) → Option (Json × List Char)
  | some (l, rest') => some (Json.obj l, rest')
  | none => none

/-- Prepends an array item to a parsed item list. -/
def consItem (j : Json) : Option (List Json × List Char) → Option (List Json × List Char)
  | some (l, rest') => some (j :: l, rest')
  | none => none

/-- Prepends an object field to a parsed field list. -/
def consField (f : String × Json) :
    Option (List (String × Json) × List Char) → Option (List (String × Json) × List Char)
  | some (l, rest') => some (f :: l, rest')
  | none => none

mutual

/-- Fuel-indexed parser for a JSON value. -/
def parseJson : Nat → List Char → Option (Json × List Char)
  | 0, _ => none
  | _ + 1, [] => none
  | fuel + 1, c :: rest =>
    if c = 'n' then parseNull rest
    else if c = '"' then strResult (parseStringBody fuel rest)
    else if c = '[' then parseArrTail fuel rest
    else if c = '\x7b' then parseObjTail fuel rest
    else parseNum (c :: rest)

/-- Parses an array body after the opening bracket: either an immediate
closing bracket, or one-or-more items. -/
def parseArrTail : Nat → List Char → Option (Json × List Char)
  | _, [] => none
  | fuel, d :: rest2 =>
    if d = ']' then some (Json.arr [], rest2)
    else arrResult (parseItems fuel (d :: rest2))

/-- Parses an object body after the opening brace: either an immediate
closing brace, or one-or-more fields. -/
def parseObjTail : Nat → List Char → Option (Json × List Char)
  | _, [] => none
  | fuel, d :: rest2 =>
    if d = '\x7d' then some (Json.obj [], rest2)
    else objResult (parseFields fuel (d :: rest2))

/-- Fuel-indexed parser for one-or-more comma-separated array items,
consuming the closing bracket. -/
def parseItems : Nat → List Char → Option (List Json × List Char)
  | 0, _ => none
  | fuel + 1, cs => parseItemsCont fuel (parseJson fuel cs)

/-- Continues an item list after one parsed item: a comma continues, a
closing bracket ends. -/
def parseItemsCont : Nat → Option (Json × List Char) → Option (List Json × List Char)
  | _, none => none
  | _, some (_, []) => none
  | fuel, some (j, c :: rest2) =>
    if c = ',' then consItem j (parseItems fuel rest2)
    else if c = ']' then some ([j], rest2)
    else none

/-- Fuel-indexed parser for one-or-more comma-separated object fields,
consuming the closing brace. -/
def parseFields : Nat → List Char → Option (List (String × Json) × List Char)
  | 0, _ => none
  | _ + 1, [] => none
  | fuel + 1, c :: rest =>
    if c = '"' then parseFieldsKey fuel (parseStringBody fuel rest)
    else none

/-- Continues a field after its parsed key string: expects a colon and
the value. -/
def parseFieldsKey : Nat → Option (List Char × List Char) →
    Option (List (String × Json) × List Char)
  | _, none => none
  | _, some (_, []) => none
  | fuel, some (k, c1 :: rest2) =>
    if c1 = ':' then parseFieldsVal fuel k (parseJson fuel rest2)
    else none

/-- Continues a field list after one parsed key-value pair: a comma
continues, a closing brace ends. -/
def parseFieldsVal (fuel : Nat) (k : List Char) :
    Option (Json × List Char) → Option (List (String × Json) × List Char)
  | none => none
  | some (_, []) => none
  | some (j, c2 :: rest4) =>
    if c2 = ',' then consField (⟨k⟩, j) (parseFields fuel rest4)
    else if c2 = '\x7d' then some ([(⟨k⟩, j)], rest4)
    else none

end

/-- A continuation after a serialized number: the next character, if any,
is not a digit (so the greedy digit run stops exactly there). -/
def delimOk (rest : List Char) : Prop :=
  ∀ c, rest.head? = some c → c.isDigit = false

/-- Serialization of a JSON value to a string. -/
def Json.serialize (j : Json) : String := ⟨serializeJson j⟩

/-- Parsing of a complete JSON document (the whole input must be
consumed). -/
def Json.parse (s : String) : Option Json :=
  match parseJson (s.data.length + 1) s.data with
  | some (j, []) => some j
  | _ => none

/-- The key list of a JSON object. -/
def Json.keys : Json → List String
  | Json.obj fields => fields.map Prod.fst
  | _ => []

/-- An optional float as JSON: `None` serializes to `null`. -/
def optNum : Option PyFloat → Json
  | none => Json.null
  | some v => Json.num v

/-- `SegmentResult.to_dict` (`pipeline.py` lines 104–105):
`dataclasses.asdict`, keys in field-declaration order. -/
def SegmentResult.to_dict (s : SegmentResult) : Json :=
  Json.obj [("start", Json.num s.start), ("end", Json.num s.end_),
    ("text", Json.str s.text), ("ipa", Json.str s.ipa),
    ("avg_logprob", optNum s.avg_logprob),
    ("no_speech_prob", optNum s.no_speech_prob)]

/-- `TranscriptionResult.to_dict` (`pipeline.py` lines 122–126): the
structured mapping, with the path rendered as a string and the segments
as a list of their own mappings, keys in field-declaration order. -/
def TranscriptionResult.to_dict (r : TranscriptionResult) : Json :=
  Json.obj [("audio_path", Json.str r.audio_path), ("text", Json.str r.text),
    ("ipa", Json.str r.ipa),
    ("segments", Json.arr (r.segments.map SegmentResult.to_dict)),
    ("language", Json.str r.language),
    ("language_confidence", optNum r.language_confidence),
    ("duration", optNum r.duration), ("model_size", Json.str r.model_size),
    ("ipa_language", Json.str r.ipa_language)]

/-- `TranscriptionResult.to_json` (`pipeline.py` lines 128–129),
whitespace-free. -/
def TranscriptionResult.to_json (r : TranscriptionResult) : String :=
  Json.serialize r.to_dict

/-- Reads a `SegmentResult` back from its structured mapping. -/
def SegmentResult.from_dict : Json → Option SegmentResult
  | Json.obj [("start", Json.num st), ("end", Json.num en),
      ("text", Json.str t), ("ipa", Json.str i),
      ("avg_logprob", ja), ("no_speech_prob", jn)] =>
    match ja, jn with
    | Json.null, Json.null => some ⟨st, en, t, i, none, none⟩
    | Json.null, Json.num n => some ⟨st, en, t, i, none, some n⟩
    | Json.num a, Json.null => some ⟨st, en, t, i, some a, none⟩
    | Json.num a, Json.num n => some ⟨st, en, t, i, some a, some n⟩
    | _, _ => none
  | _ => none

/-- Reads a segment list back from its structured mappings. -/
def decodeSegs : List Json → Option (List SegmentResult)
  | [] => some []
  | j :: rest =>
    match SegmentResult.from_dict j, decodeSegs rest with
    | some s, some t => some (s :: t)
    | _, _ => none

/-- Reads a `TranscriptionResult` back from its structured mapping. -/
def TranscriptionResult.from_dict : Json → Option TranscriptionResult
  | Json.obj [("audio_path", Json.str ap), ("text", Json.str t),
      ("ipa", Json.str i), ("segments", Json.arr segs),
      ("language", Json.str lg), ("language_confidence", jc),
      ("duration", jd), ("model_size", Json.str ms),
      ("ipa_language", Json.str il)] =>
    match jc, jd, decodeSegs segs with
    | Json.null, Json.null, some ss => some ⟨ap, t, i, ss, lg, none, none, ms, il⟩
    | Json.null, Json.num d, some ss => some ⟨ap, t, i, ss, lg, none, some d, ms, il⟩
    | Json.num c, Json.null, some ss => some ⟨ap, t, i, ss, lg, some c, none, ms, il⟩
    | Json.num c, Json.num d, some ss => some ⟨ap, t, i, ss, lg, some c, some d, ms, il⟩
    | _, _, _ => none
  | _ => none

/-! ## Concrete fixtures for witnesses

A two-utterance recognizer run (with a whitespace-only middle segment,
detected language `"en"`, confidence `0.95`, duration `2.0`) and simple
deterministic backends. -/

/-- A filesystem on which every path exists. -/
def alwaysExists : String → Bool := fun _ => true

/-- Raw segments: `"Hi"`, a whitespace-only detection, and `" there "`. -/
def demoRaws : List RawSegment :=
  [{ start := ⟨0, 0⟩, end_ := ⟨12, -1⟩, text := "Hi",
     avg_logprob := none, no_speech_prob := none },
   { start := ⟨12, -1⟩, end_ := ⟨13, -1⟩, text := "  ",
     avg_logprob := none, no_speech_prob := none },
   { start := ⟨13, -1⟩, end_ := ⟨2, 0⟩, text := " there ",
     avg_logprob := none, no_speech_prob := none }]

/-- Run metadata: detected `"en"`, probability `0.95`, duration `2.0`. -/
def demoInfo : RecInfo :=
  { language := some "en", language_probability := some ⟨95, -2⟩,
    duration := some ⟨2, 0⟩ }

/-- A recognizer that always produces `demoRaws` and `demoInfo`. -/
def demoEngine : Engine := fun _ _ _ _ _ _ => { segments := demoRaws, info := demoInfo }

/-- A backend that returns the input text unchanged. -/
def echoBackend : Backend := fun t _ _ => Except.ok t

/-- A backend that returns the language code it was given. -/
def langBackend : Backend := fun _ l _ => Except.ok l

/-- A backend that brackets its input, so segment-wise and full-text
phonemization visibly differ. -/
def bracketBackend : Backend := fun t _ _ => Except.ok ("[" ++ t ++ "]")

/-- The result of transcribing the demo run with `echoBackend` and no
overrides (the spec's end-to-end scenario). -/
def demoResult : TranscriptionResult :=
  { audio_path := "audio.wav", text := "Hi there", ipa := "Hi there",
    segments :=
      [{ start := ⟨0, 0⟩, end_ := ⟨12, -1⟩, text := "Hi", ipa := "Hi",
         avg_logprob := none, no_speech_prob := none },
       { start := ⟨13, -1⟩, end_ := ⟨2, 0⟩, text := "there", ipa := "there",
         avg_logprob := none, no_speech_prob := none }],
    language := "en", language_confidence := some ⟨95, -2⟩,
    duration := some ⟨2, 0⟩, model_size := "small", ipa_language := "en-us" }

/-- The result of the demo run with `langBackend` and the verbatim
`ipa_language` override `"EN_US"`. -/
def demoResultOverride : TranscriptionResult :=
  { audio_path := "audio.wav", text := "Hi there", ipa := "EN_US",
    segments :=
      [{ start := ⟨0, 0⟩, end_ := ⟨12, -1⟩, text := "Hi", ipa := "EN_US",
         avg_logprob := none, no_speech_prob := none },
       { start := ⟨13, -1⟩, end_ := ⟨2, 0⟩, text := "there", ipa := "EN_US",
         avg_logprob := none, no_speech_prob := none }],
    language := "en", language_confidence := some ⟨95, -2⟩,
    duration := some ⟨2, 0⟩, model_size := "small", ipa_language := "EN_US" }

/-- The result of the demo run with `bracketBackend`: the full IPA
`"[Hi there]"` is not the concatenation of the segment IPAs. -/
def bracketResult : TranscriptionResult :=
  { audio_path := "audio.wav", text := "Hi there", ipa := "[Hi there]",
    segments :=
      [{ start := ⟨0, 0⟩, end_ := ⟨12, -1⟩, text := "Hi", ipa := "[Hi]",
         avg_logprob := none, no_speech_prob := none },
       { start := ⟨13, -1⟩, end_ := ⟨2, 0⟩, text := "there", ipa := "[there]",
         avg_logprob := none, no_speech_prob := none }],
    language := "en", language_confidence := some ⟨95, -2⟩,
    duration := some ⟨2, 0⟩, model_size := "small", ipa_language := "en-us" }

end SpeechToIpa

namespace SpeechToIpa

/-! ### Auxiliary lemmas: trimming and joining -/

theorem string_eq_empty_of_data (s : String) (h : s.data = []) : s = "" := by
  cases s with
  | mk d => rw [show d = [] from h]

theorem dropWhile_eq_self_of_head (p : Char → Bool) (l : List Char)
    (h : ∀ c, l.head? = some c → p c = false) : l.dropWhile p = l := by
  cases l with
  | nil => rfl
  | cons c t => rw [List.dropWhile_cons, h c rfl]; simp

theorem head?_dropWhile_false (p : Char → Bool) (l : List Char) :
    ∀ c, (l.dropWhile p).head? = some c → p c = false := by
  induction l with
  | nil => intro c hc; simp at hc
  | cons a t ih =>
    intro c hc
    by_cases hpa : p a = true
    · rw [List.dropWhile_cons_of_pos hpa] at hc
      exact ih c hc
    · rw [List.dropWhile_cons_of_neg hpa] at hc
      simp only [List.head?_cons, Option.some.injEq] at hc
      subst hc
      simpa using hpa

theorem stripList_prefix (l : List Char) :
    stripList l <+: l.dropWhile isPySpace := by
  have h1 : ((l.dropWhile isPySpace).reverse.dropWhile isPySpace) <:+
      (l.dropWhile isPySpace).reverse := List.dropWhile_suffix _
  have h2 := List.reverse_prefix.mpr h1
  rwa [List.reverse_reverse] at h2

theorem stripList_head (l : List Char) :
    ∀ c, (stripList l).head? = some c → isPySpace c = false := by
  intro c hc
  obtain ⟨t, ht⟩ := stripList_prefix l
  cases hsl : stripList l with
  | nil => rw [hsl] at hc; simp at hc
  | cons a u =>
    rw [hsl] at hc
    simp only [List.head?_cons, Option.some.injEq] at hc
    obtain rfl := hc
    rw [hsl] at ht
    refine head?_dropWhile_false isPySpace l a ?_
    rw [← ht]
    rfl

theorem stripList_revhead (l : List Char) :
    ∀ c, (stripList l).reverse.head? = some c → isPySpace c = false := by
  intro c hc
  unfold stripList at hc
  rw [List.reverse_reverse] at hc
  exact head?_dropWhile_false isPySpace _ c hc

theorem stripList_eq_self (l : List Char)
    (h1 : ∀ c, l.head? = some c → isPySpace c = false)
    (h2 : ∀ c, l.reverse.head? = some c → isPySpace c = false) :
    stripList l = l := by
  unfold stripList
  rw [dropWhile_eq_self_of_head _ _ h1, dropWhile_eq_self_of_head _ _ h2,
    List.reverse_reverse]

/-- A string that is a non-empty output of `pyStrip` has no whitespace at
either edge. -/
theorem pyStrip_edges (s : String) (h : pyStrip s ≠ "") :
    pyStrip s ≠ "" ∧
    (∀ c, (pyStrip s).data.head? = some c → isPySpace c = false) ∧
    (∀ c, (pyStrip s).data.reverse.head? = some c → isPySpace c = false) :=
  ⟨h, fun c hc => stripList_head s.data c hc, fun c hc => stripList_revhead s.data c hc⟩

/-- Joining non-empty strings with no whitespace at their edges yields a
non-empty string with no whitespace at its edges. -/
theorem pyJoin_edges (parts : List String) (hne : parts ≠ [])
    (hall : ∀ q ∈ parts, q ≠ "" ∧
      (∀ c, q.data.head? = some c → isPySpace c = false) ∧
      (∀ c, q.data.reverse.head? = some c → isPySpace c = false)) :
    pyJoin " " parts ≠ "" ∧
    (∀ c, (pyJoin " " parts).data.head? = some c → isPySpace c = false) ∧
    (∀ c, (pyJoin " " parts).data.reverse.head? = some c → isPySpace c = false) := by
  induction parts with
  | nil => cases hne rfl
  | cons x rest ih =>
    cases rest with
    | nil => exact hall x (by simp)
    | cons y ys =>
      have hx := hall x (by simp)
      have hrest := ih (by simp) (fun q hq => hall q (List.mem_cons_of_mem _ hq))
      have hxd : x.data ≠ [] := fun hd => hx.1 (string_eq_empty_of_data x hd)
      have hJd : (pyJoin " " (y :: ys)).data ≠ [] := fun hd =>
        hrest.1 (string_eq_empty_of_data _ hd)
      have hdata : (pyJoin " " (x :: y :: ys)).data =
          x.data ++ (' ' :: (pyJoin " " (y :: ys)).data) := by
        have h0 : (pyJoin " " (x :: y :: ys)).data =
            (x.data ++ [' ']) ++ (pyJoin " " (y :: ys)).data := rfl
        rw [h0, List.append_assoc]
        rfl
      refine ⟨?_, ?_, ?_⟩
      · intro hcontra
        have : (pyJoin " " (x :: y :: ys)).data = [] := by rw [hcontra]
        rw [hdata] at this
        simp [hxd] at this
      · intro c hc
        rw [hdata, List.head?_append_of_ne_nil _ hxd] at hc
        exact hx.2.1 c hc
      · intro c hc
        rw [hdata, List.reverse_append, List.reverse_cons] at hc
        rw [List.append_assoc, List.head?_append_of_ne_nil _ (by simpa using hJd)] at hc
        exact hrest.2.2 c hc

/-- Joining a list of non-empty trimmed strings with single spaces yields
a string that trimming leaves unchanged. -/
theorem pyStrip_pyJoin_parts (parts : List String)
    (hall : ∀ q ∈ parts, ∃ s, q = pyStrip s ∧ q ≠ "") :
    pyStrip (pyJoin " " parts) = pyJoin " " parts := by
  cases parts with
  | nil => rfl
  | cons x rest =>
    have hedges := pyJoin_edges (x :: rest) (by simp) ?_
    · show String.mk (stripList (pyJoin " " (x :: rest)).data) = _
      rw [stripList_eq_self _ hedges.2.1 hedges.2.2]
    · intro q hq
      obtain ⟨s, hqs, hqne⟩ := hall q hq
      subst hqs
      exact pyStrip_edges s hqne

/-! ### Characterization of the aggregation loop and the orchestrator -/

/-- When the per-segment loop succeeds, it returns exactly the raw
segments with non-empty trimmed text, in order, each with its trimmed
text and its adapter phonemization, and the list of those trimmed texts. -/
theorem processSegments_ok_spec (backend : Backend) (code : String)
    (raws : List RawSegment) (segs : List SegmentResult) (parts : List String)
    (h : processSegments backend code raws = Except.ok (segs, parts)) :
    segs.map (fun s => (s.start, s.end_, s.text, s.avg_logprob, s.no_speech_prob)) =
      (raws.filter (fun g => !(pyStrip g.text == ""))).map
        (fun g => (g.start, g.end_, pyStrip g.text, g.avg_logprob, g.no_speech_prob)) ∧
    parts = (raws.filter (fun g => !(pyStrip g.text == ""))).map (fun g => pyStrip g.text) ∧
    (∀ s ∈ segs, (∃ t, s.text = pyStrip t ∧ s.text ≠ "") ∧
      (_phonemize_text backend s.text code).1 = Except.ok s.ipa) := by
  induction raws generalizing segs parts with
  | nil =>
    simp only [processSegments, Except.ok.injEq, Prod.mk.injEq] at h
    obtain ⟨rfl, rfl⟩ := h
    simp
  | cons g rest ih =>
    simp only [processSegments] at h
    by_cases hg : pyStrip g.text = ""
    · rw [if_pos hg] at h
      have hfil : (g :: rest).filter (fun g => !(pyStrip g.text == "")) =
          rest.filter (fun g => !(pyStrip g.text == "")) := by
        simp [List.filter_cons, hg]
      rw [hfil]
      exact ih segs parts h
    · rw [if_neg hg] at h
      rcases hphon : (_phonemize_text backend (pyStrip g.text) code).1 with e | ipa <;>
        rw [hphon] at h
      · exact absurd h (by simp)
      · rcases hrest : processSegments backend code rest with e | sp <;> rw [hrest] at h
        · exact absurd h (by simp)
        · obtain ⟨segs', parts'⟩ := sp
          simp only [Except.ok.injEq, Prod.mk.injEq] at h
          obtain ⟨rfl, rfl⟩ := h
          have hfil : (g :: rest).filter (fun g => !(pyStrip g.text == "")) =
              g :: rest.filter (fun g => !(pyStrip g.text == "")) := by
            simp [List.filter_cons, hg]
          obtain ⟨ih1, ih2, ih3⟩ := ih segs' parts' hrest
          refine ⟨?_, ?_, ?_⟩
          · rw [hfil, List.map_cons, List.map_cons, ih1]
          · rw [hfil, List.map_cons, ← ih2]
          · intro s hs
            rcases List.mem_cons.mp hs with rfl | hs'
            · exact ⟨⟨g.text, rfl, hg⟩, hphon⟩
            · exact ih3 s hs'

/-- Full characterization of a successful orchestrator run. -/
theorem transcribe_ok_spec (fsExists : String → Bool) (engine : Engine)
    (backend : Backend) (audio_path model_size : String)
    (language ipa_language : Option String) (device : String)
    (compute_type : Option String) (vad_filter : Bool) (r : TranscriptionResult)
    (h : (transcribe_audio_to_ipa fsExists engine backend audio_path model_size
        language ipa_language device compute_type vad_filter).1 = Except.ok r) :
    fsExists audio_path = true ∧
    ∃ segs parts,
      processSegments backend r.ipa_language
          (engine model_size device (selectComputeType device compute_type)
            audio_path language vad_filter).segments = Except.ok (segs, parts) ∧
      r.segments = segs ∧
      r.text = pyStrip (pyJoin " " parts) ∧
      r.language = pyOrString language
        (pyOrString (engine model_size device (selectComputeType device compute_type)
          audio_path language vad_filter).info.language "") ∧
      r.ipa_language = pyOrString ipa_language (_resolve_espeak_language (some r.language)) ∧
      r.audio_path = audio_path ∧
      r.model_size = model_size ∧
      r.language_confidence = (engine model_size device (selectComputeType device compute_type)
        audio_path language vad_filter).info.language_probability ∧
      r.duration = (engine model_size device (selectComputeType device compute_type)
        audio_path language vad_filter).info.duration ∧
      (r.text ≠ "" → (_phonemize_text backend r.text r.ipa_language).1 = Except.ok r.ipa) ∧
      (r.text = "" → r.ipa = "") := by
  cases hfs : fsExists audio_path with
  | false =>
    rw [transcribe_audio_to_ipa] at h
    rw [hfs] at h
    exact absurd h (by simp)
  | true =>
    rw [transcribe_audio_to_ipa] at h
    rw [hfs] at h
    simp only [Bool.not_true, Bool.false_eq_true, if_false] at h
    refine ⟨rfl, ?_⟩
    rcases hps : processSegments backend
        (pyOrString ipa_language (_resolve_espeak_language (some (pyOrString language
          (pyOrString (engine model_size device (selectComputeType device compute_type)
            audio_path language vad_filter).info.language "")))))
        (engine model_size device (selectComputeType device compute_type)
          audio_path language vad_filter).segments with e | sp <;> rw [hps] at h
    · exact absurd h (by simp)
    · obtain ⟨segs, parts⟩ := sp
      dsimp only at h
      by_cases hft : pyStrip (pyJoin " " parts) = ""
      · rw [if_neg (by simp [hft])] at h
        dsimp only at h
        simp only [Except.ok.injEq] at h
        subst h
        exact ⟨segs, parts, hps, rfl, rfl, rfl, rfl, rfl, rfl, rfl, rfl,
          fun hne => absurd hft hne, fun _ => rfl⟩
      · rw [if_pos (by simp [hft])] at h
        rcases hphon : (_phonemize_text backend (pyStrip (pyJoin " " parts))
            (pyOrString ipa_language (_resolve_espeak_language (some (pyOrString language
              (pyOrString (engine model_size device (selectComputeType device compute_type)
                audio_path language vad_filter).info.language "")))))).1 with e | fipa <;>
          rw [hphon] at h
        · exact absurd h (by simp)
        · dsimp only at h
          simp only [Except.ok.injEq] at h
          subst h
          exact ⟨segs, parts, hps, rfl, rfl, rfl, rfl, rfl, rfl, rfl, rfl,
            fun _ => hphon, fun he => absurd he hft⟩

/-- C1: every key of the static table resolves to its mapped value, the
documented examples do so in particular, and an absent or empty hint
resolves to the default `"en-us"`. -/
theorem resolve_table_and_default :
    (∀ p ∈ _ESPEAK_LANG_MAP, _resolve_espeak_language (some p.1) = p.2) ∧
    _resolve_espeak_language (some "en") = "en-us" ∧
    _resolve_espeak_language (some "pt") = "pt-br" ∧
    _resolve_espeak_language (some "zh") = "zh" ∧
    _resolve_espeak_language (some "zh-cn") = "zh" ∧
    _resolve_espeak_language (some "zh-tw") = "zh" ∧
    _resolve_espeak_language none = "en-us" ∧
    _resolve_espeak_language (some "") = "en-us" := by
  refine ⟨?_, ?_, ?_, ?_, ?_, ?_, ?_, ?_⟩ <;> decide

/-- C1 witness: the table theorem applied at the entry `("en", "en-us")`. -/
theorem resolve_table_and_default_witness :
    _resolve_espeak_language (some "en") = "en-us" :=
  resolve_table_and_default.1 ("en", "en-us") (by decide)

/-- C2 (counterexample): the claim predicts that every non-empty hint whose
normalized code has no exact table match and no hyphen is returned in
normalized form.  The whitespace hint `" "` is non-empty, normalizes to
`""` (no exact match, no hyphen), yet the code returns `"en-us"`, not the
normalized code. -/
theorem resolve_passthrough_counterexample :
    (" " : String) ≠ "" ∧
    pyNormalise " " = "" ∧
    List.lookup (pyNormalise " ") _ESPEAK_LANG_MAP = none ∧
    (pyNormalise " ").data.contains '-' = false ∧
    _resolve_espeak_language (some " ") ≠ pyNormalise " " := by
  decide

/-- C2 (amended): for every non-empty hint whose normalized form
(lowercase, trimmed, underscores to hyphens) is non-empty, resolution is
exact-match lookup of the normalized code, then base-subtag fallback when
it contains a hyphen, then pass-through of the normalized code; in
particular `resolve "DE_at" = "de"` and `resolve "xx-yy" = "xx-yy"`. -/
theorem resolve_normalise_fallback_passthrough (h : String) (hne : h ≠ "")
    (hn : pyNormalise h ≠ "") :
    _resolve_espeak_language (some h) =
      (match List.lookup (pyNormalise h) _ESPEAK_LANG_MAP with
       | some mapped => mapped
       | none =>
         if (pyNormalise h).data.contains '-' then
           match List.lookup (baseSubtag (pyNormalise h)) _ESPEAK_LANG_MAP with
           | some mapped => mapped
           | none => pyNormalise h
         else pyNormalise h) ∧
    _resolve_espeak_language (some "DE_at") = "de" ∧
    _resolve_espeak_language (some "xx-yy") = "xx-yy" := by
  refine ⟨?_, by decide, by decide⟩
  simp only [_resolve_espeak_language, _normalise_lang_code, if_neg hne, if_neg hn]

/-- C2 witness: the amended theorem applied at the concrete hint `"DE_at"`. -/
theorem resolve_normalise_fallback_passthrough_witness :
    _resolve_espeak_language (some "DE_at") = "de" :=
  (resolve_normalise_fallback_passthrough "DE_at" (by decide) (by decide)).2.1

/-- Every accumulated full-text part is a non-empty trimmed string. -/
theorem parts_are_stripped (raws : List RawSegment) :
    ∀ q ∈ (raws.filter (fun g => !(pyStrip g.text == ""))).map (fun g => pyStrip g.text),
      ∃ s, q = pyStrip s ∧ q ≠ "" := by
  intro q hq
  obtain ⟨g, hgmem, rfl⟩ := List.mem_map.mp hq
  have hpred := (List.mem_filter.mp hgmem).2
  refine ⟨g.text, rfl, ?_⟩
  simpa using hpred

/-- C3: a successful run keeps exactly the raw segments whose trimmed
text is non-empty, in input order, each carrying its trimmed text and
timing/confidence data, and the result's text is those trimmed texts
joined by single spaces. -/
theorem transcribe_segment_aggregation (fsExists : String → Bool) (engine : Engine)
    (backend : Backend) (audio_path model_size : String)
    (language ipa_language : Option String) (device : String)
    (compute_type : Option String) (vad_filter : Bool) (r : TranscriptionResult)
    (h : (transcribe_audio_to_ipa fsExists engine backend audio_path model_size
        language ipa_language device compute_type vad_filter).1 = Except.ok r) :
    r.segments.map (fun s => (s.start, s.end_, s.text, s.avg_logprob, s.no_speech_prob)) =
      ((engine model_size device (selectComputeType device compute_type) audio_path
          language vad_filter).segments.filter (fun g => !(pyStrip g.text == ""))).map
        (fun g => (g.start, g.end_, pyStrip g.text, g.avg_logprob, g.no_speech_prob)) ∧
    r.text = pyJoin " "
      (((engine model_size device (selectComputeType device compute_type) audio_path
          language vad_filter).segments.filter (fun g => !(pyStrip g.text == ""))).map
        (fun g => pyStrip g.text)) := by
  obtain ⟨hfs, segs, parts, hps, hsegs, htext, -, -, -, -, -, -, -, -⟩ :=
    transcribe_ok_spec _ _ _ _ _ _ _ _ _ _ _ h
  obtain ⟨ih1, ih2, -⟩ := processSegments_ok_spec _ _ _ _ _ hps
  constructor
  · rw [hsegs, ih1]
  · rw [htext, ih2, pyStrip_pyJoin_parts _ (parts_are_stripped _)]

/-- C3 witness: the aggregation theorem applied to the demo run (`"Hi"`,
a whitespace-only segment, `" there "`) with the echo backend. -/
theorem transcribe_segment_aggregation_witness :
    demoResult.segments.map (fun s => (s.start, s.end_, s.text, s.avg_logprob, s.no_speech_prob)) =
      ((demoEngine "small" "cpu" (selectComputeType "cpu" none) "audio.wav" none
          true).segments.filter (fun g => !(pyStrip g.text == ""))).map
        (fun g => (g.start, g.end_, pyStrip g.text, g.avg_logprob, g.no_speech_prob)) ∧
    demoResult.text = pyJoin " "
      (((demoEngine "small" "cpu" (selectComputeType "cpu" none) "audio.wav" none
          true).segments.filter (fun g => !(pyStrip g.text == ""))).map
        (fun g => pyStrip g.text)) :=
  transcribe_segment_aggregation alwaysExists demoEngine echoBackend "audio.wav"
    "small" none none "cpu" none true demoResult rfl

/-- C4: a successful run's `language` is the caller override when given
(non-empty), else the detected language, else `""` (Python `or`
semantics), and `ipa_language` is the caller's `ipa_language` override
when given, else the resolver applied to the recognised language. -/
theorem transcribe_language_fields (fsExists : String → Bool) (engine : Engine)
    (backend : Backend) (audio_path model_size : String)
    (language ipa_language : Option String) (device : String)
    (compute_type : Option String) (vad_filter : Bool) (r : TranscriptionResult)
    (h : (transcribe_audio_to_ipa fsExists engine backend audio_path model_size
        language ipa_language device compute_type vad_filter).1 = Except.ok r) :
    r.language = pyOrString language
      (pyOrString (engine model_size device (selectComputeType device compute_type)
        audio_path language vad_filter).info.language "") ∧
    r.ipa_language = pyOrString ipa_language
      (_resolve_espeak_language (some r.language)) := by
  obtain ⟨-, segs, parts, -, -, -, hlang, hipa, -, -, -, -, -, -⟩ :=
    transcribe_ok_spec _ _ _ _ _ _ _ _ _ _ _ h
  exact ⟨hlang, hipa⟩

/-- C4 witness: with no overrides and detected language `"en"`, the demo
run has `language = "en"` and `ipa_language = "en-us"`. -/
theorem transcribe_language_fields_witness :
    demoResult.language = "en" ∧ demoResult.ipa_language = "en-us" := by
  have h := transcribe_language_fields alwaysExists demoEngine echoBackend "audio.wav"
    "small" none none "cpu" none true demoResult rfl
  exact ⟨h.1.trans (by decide), h.2.trans (by decide)⟩

/-- C5: when the audio path does not exist, the orchestrator returns the
not-found error naming the path and the recognition engine is never
instantiated or invoked (the spy count is `0`). -/
theorem transcribe_missing_file (fsExists : String → Bool) (engine : Engine)
    (backend : Backend) (audio_path model_size : String)
    (language ipa_language : Option String) (device : String)
    (compute_type : Option String) (vad_filter : Bool)
    (h : fsExists audio_path = false) :
    transcribe_audio_to_ipa fsExists engine backend audio_path model_size
        language ipa_language device compute_type vad_filter =
      (Except.error (PipelineError.fileNotFound
        ("Audio file not found: " ++ audio_path)), 0) := by
  rw [transcribe_audio_to_ipa, h]
  rfl

/-- C5 witness: the missing-file theorem applied to a concrete run on an
empty filesystem. -/
theorem transcribe_missing_file_witness :
    transcribe_audio_to_ipa (fun _ => false) demoEngine echoBackend "missing.wav"
        "small" none none "cpu" none true =
      (Except.error (PipelineError.fileNotFound
        ("Audio file not found: " ++ "missing.wav")), 0) :=
  transcribe_missing_file (fun _ => false) demoEngine echoBackend "missing.wav"
    "small" none none "cpu" none true rfl

/-- C6: in a successful run, the result's `ipa` is the adapter's
phonemization (with `ipa_language`) of the full joined text when that
text is non-empty, and `""` when it is empty; and there is a run in which
it differs from the concatenation of the per-segment IPA values. -/
theorem transcribe_full_ipa_independent (fsExists : String → Bool) (engine : Engine)
    (backend : Backend) (audio_path model_size : String)
    (language ipa_language : Option String) (device : String)
    (compute_type : Option String) (vad_filter : Bool) (r : TranscriptionResult)
    (h : (transcribe_audio_to_ipa fsExists engine backend audio_path model_size
        language ipa_language device compute_type vad_filter).1 = Except.ok r) :
    (r.text ≠ "" → (_phonemize_text backend r.text r.ipa_language).1 = Except.ok r.ipa) ∧
    (r.text = "" → r.ipa = "") ∧
    (∃ (fsE : String → Bool) (eng : Engine) (bk : Backend) (pa ms : String)
        (lg il : Option String) (dv : String) (ct : Option String) (vf : Bool)
        (r2 : TranscriptionResult),
      (transcribe_audio_to_ipa fsE eng bk pa ms lg il dv ct vf).1 = Except.ok r2 ∧
      r2.ipa ≠ pyJoin "" (r2.segments.map (fun s => s.ipa))) := by
  obtain ⟨-, segs, parts, -, -, -, -, -, -, -, -, -, hfull, hempty⟩ :=
    transcribe_ok_spec _ _ _ _ _ _ _ _ _ _ _ h
  exact ⟨hfull, hempty, alwaysExists, demoEngine, bracketBackend, "audio.wav", "small",
    none, none, "cpu", none, true, bracketResult, rfl, by decide⟩

/-- C6 witness: the full-IPA theorem applied to the demo run, whose full
text `"Hi there"` is non-empty. -/
theorem transcribe_full_ipa_independent_witness :
    (_phonemize_text echoBackend "Hi there" "en-us").1 = Except.ok "Hi there" := by
  have h := transcribe_full_ipa_independent alwaysExists demoEngine echoBackend
    "audio.wav" "small" none none "cpu" none true demoResult rfl
  exact h.1 (by decide)

/-- C7: on text whose trimmed form is empty, the phonemization adapter
returns `""` with zero backend invocations. -/
theorem phonemize_empty_no_backend (backend : Backend) (text ipa_language : String)
    (h : pyStrip text = "") :
    _phonemize_text backend text ipa_language = (Except.ok "", 0) := by
  rw [_phonemize_text, if_pos h]

/-- C7 witness: the adapter on whitespace-only input `"  "`. -/
theorem phonemize_empty_no_backend_witness :
    pyStrip "  " = "" ∧
    _phonemize_text echoBackend "  " "en-us" = (Except.ok "", 0) :=
  ⟨by decide, phonemize_empty_no_backend echoBackend "  " "en-us" (by decide)⟩

/-- C8: when the backend reports a runtime failure, the adapter raises a
domain error stating that phonemization failed, naming the language code,
and suggesting that the backend installation and language support be
verified, with the original failure preserved as the cause; no partial
result is returned. -/
theorem phonemize_backend_failure (backend : Backend) (text ipa_language exc : String)
    (hne : pyStrip text ≠ "")
    (hb : backend text ipa_language _PUNCTUATION = Except.error exc) :
    _phonemize_text backend text ipa_language =
      (Except.error
        { message := "Failed to phonemize text. Ensure espeak-ng is installed and the language '"
            ++ ipa_language ++ "' is supported."
          cause := exc }, 1) := by
  rw [_phonemize_text, if_neg hne, hb]

/-- C8 witness: a backend that fails with `"espeak not installed"` on the
non-blank text `"hello"` and language `"xx"`. -/
theorem phonemize_backend_failure_witness :
    _phonemize_text (fun _ _ _ => Except.error "espeak not installed") "hello" "xx" =
      (Except.error
        { message := "Failed to phonemize text. Ensure espeak-ng is installed and the language '"
            ++ "xx" ++ "' is supported."
          cause := "espeak not installed" }, 1) :=
  phonemize_backend_failure (fun _ _ _ => Except.error "espeak not installed")
    "hello" "xx" "espeak not installed" (by decide) rfl

/-- C10: a non-empty `ipa_language` override is recorded verbatim in the
result and used verbatim for every phonemization (per-segment and
full-text); normalization would have changed a code like `"EN_US"`, and
the resolver maps it elsewhere, so neither touches the override. -/
theorem transcribe_ipa_override_verbatim (fsExists : String → Bool) (engine : Engine)
    (backend : Backend) (audio_path model_size : String) (language : Option String)
    (override device : String) (compute_type : Option String) (vad_filter : Bool)
    (r : TranscriptionResult) (ho : override ≠ "")
    (h : (transcribe_audio_to_ipa fsExists engine backend audio_path model_size
        language (some override) device compute_type vad_filter).1 = Except.ok r) :
    r.ipa_language = override ∧
    (∀ s ∈ r.segments, (_phonemize_text backend s.text override).1 = Except.ok s.ipa) ∧
    (r.text ≠ "" → (_phonemize_text backend r.text override).1 = Except.ok r.ipa) ∧
    pyNormalise "EN_US" ≠ "EN_US" ∧
    _resolve_espeak_language (some "EN_US") ≠ "EN_US" := by
  obtain ⟨-, segs, parts, hps, hsegs, -, -, hipa, -, -, -, -, hfull, -⟩ :=
    transcribe_ok_spec _ _ _ _ _ _ _ _ _ _ _ h
  have hov : r.ipa_language = override := by
    rw [hipa]
    simp [pyOrString, ho]
  refine ⟨hov, ?_, ?_, by decide, by decide⟩
  · intro s hs
    obtain ⟨-, -, ih3⟩ := processSegments_ok_spec _ _ _ _ _ hps
    rw [hsegs] at hs
    have hphon := (ih3 s hs).2
    rwa [hov] at hphon
  · intro hne
    have hphon := hfull hne
    rwa [hov] at hphon

/-! ### JSON round-trip development: numbers -/

theorem digitVal_digitChar (m : Nat) (h : m < 10) : digitVal (digitChar m) = m := by
  interval_cases m <;> decide

theorem digitChar_isDigit (m : Nat) (h : m < 10) : (digitChar m).isDigit = true := by
  interval_cases m <;> decide

theorem hexVal_hexChar (m : Nat) (h : m < 16) : hexVal (hexChar m) = some m := by
  interval_cases m <;> decide

theorem natCharsAux_digits (fuel : Nat) :
    ∀ n, ∀ c ∈ natCharsAux fuel n, c.isDigit = true := by
  induction fuel with
  | zero => intro n c hc; simp [natCharsAux] at hc
  | succ fuel ih =>
    intro n c hc
    rw [natCharsAux] at hc
    by_cases h0 : n = 0
    · simp [h0] at hc
    · rw [if_neg h0] at hc
      rcases List.mem_cons.mp hc with rfl | hc'
      · exact digitChar_isDigit _ (Nat.mod_lt _ (by omega))
      · exact ih (n / 10) c hc'

theorem digitsToNat_concat (l : List Char) (c : Char) :
    digitsToNat (l ++ [c]) = 10 * digitsToNat l + digitVal c := by
  unfold digitsToNat
  rw [List.foldl_append]
  rfl

theorem natCharsAux_val (fuel : Nat) :
    ∀ n, n ≤ fuel → digitsToNat ((natCharsAux fuel n).reverse) = n := by
  induction fuel with
  | zero =>
    intro n hn
    have h0 : n = 0 := by omega
    subst h0
    rfl
  | succ fuel ih =>
    intro n hn
    rw [natCharsAux]
    by_cases h0 : n = 0
    · subst h0
      rfl
    · rw [if_neg h0, List.reverse_cons, digitsToNat_concat]
      have hdiv : n / 10 ≤ fuel := by omega
      rw [ih (n / 10) hdiv, digitVal_digitChar _ (Nat.mod_lt _ (by omega))]
      omega

theorem natChars_ne_nil (n : Nat) : natChars n ≠ [] := by
  unfold natChars
  by_cases h0 : n = 0
  · simp [h0]
  · rw [if_neg h0]
    obtain ⟨m, rfl⟩ : ∃ m, n = m + 1 := ⟨n - 1, by omega⟩
    rw [natCharsAux, if_neg h0]
    simp

theorem natChars_digits (n : Nat) : ∀ c ∈ natChars n, c.isDigit = true := by
  unfold natChars
  by_cases h0 : n = 0
  · intro c hc
    rw [if_pos h0] at hc
    simp at hc
    subst hc
    decide
  · intro c hc
    rw [if_neg h0, List.mem_reverse] at hc
    exact natCharsAux_digits n n c hc

theorem natChars_val (n : Nat) : digitsToNat (natChars n) = n := by
  unfold natChars
  by_cases h0 : n = 0
  · rw [if_pos h0, h0]
    rfl
  · rw [if_neg h0]
    exact natCharsAux_val n n le_rfl

theorem takeWhile_append_all (p : Char → Bool) (ds rest : List Char)
    (hds : ∀ c ∈ ds, p c = true)
    (hrest : ∀ c, rest.head? = some c → p c = false) :
    (ds ++ rest).takeWhile p = ds ∧ (ds ++ rest).dropWhile p = rest := by
  induction ds with
  | nil =>
    simp only [List.nil_append]
    refine ⟨?_, dropWhile_eq_self_of_head p rest hrest⟩
    cases rest with
    | nil => rfl
    | cons c t =>
      rw [List.takeWhile_cons, hrest c rfl]
      simp
  | cons d ds' ih =>
    have hd := hds d (by simp)
    obtain ⟨iht, ihd⟩ := ih (fun c hc => hds c (List.mem_cons_of_mem _ hc))
    constructor
    · rw [List.cons_append, List.takeWhile_cons, hd, iht]
      simp
    · rw [List.cons_append, List.dropWhile_cons, hd, ihd]
      simp

theorem readInt_intChars (i : Int) (rest : List Char) (hrest : delimOk rest) :
    readInt (intChars i ++ rest) = some (i, rest) := by
  obtain ⟨ht, hd⟩ := takeWhile_append_all Char.isDigit (natChars i.natAbs) rest
    (natChars_digits _) hrest
  unfold intChars
  by_cases hneg : i < 0
  · rw [if_pos hneg]
    have hsign : parseSign (('-' :: natChars i.natAbs) ++ rest) =
        (true, natChars i.natAbs ++ rest) := by
      simp [parseSign]
    rw [List.cons_append] at hsign ⊢
    unfold readInt
    rw [hsign]
    simp only [ht, hd, natChars_val]
    rw [if_neg (natChars_ne_nil _)]
    have hval : intOfParts true i.natAbs = i := by
      simp only [intOfParts, if_true]
      omega
    rw [hval]
  · rw [if_neg hneg]
    obtain ⟨c, t, hct⟩ : ∃ c t, natChars i.natAbs = c :: t := by
      cases hnc : natChars i.natAbs with
      | nil => exact absurd hnc (natChars_ne_nil _)
      | cons c t => exact ⟨c, t, rfl⟩
    have hcd : c.isDigit = true := by
      refine natChars_digits i.natAbs c ?_
      rw [hct]
      simp
    have hcne : ¬(c = '-') := fun hc => by
      rw [hc] at hcd
      exact absurd hcd (by decide)
    have hsign : parseSign (natChars i.natAbs ++ rest) =
        (false, natChars i.natAbs ++ rest) := by
      rw [hct, List.cons_append, parseSign, if_neg hcne]
    unfold readInt
    rw [hsign]
    simp only [ht, hd, natChars_val]
    rw [if_neg (natChars_ne_nil _)]
    have hval : intOfParts false i.natAbs = i := by
      simp only [intOfParts, Bool.false_eq_true, if_false]
      omega
    rw [hval]

theorem parseNum_serializeNum (v : PyFloat) (rest : List Char) (hrest : delimOk rest) :
    parseNum (serializeNum v ++ rest) = some (Json.num v, rest) := by
  unfold serializeNum
  have h1 : (intChars v.mant ++ 'e' :: intChars v.exp10) ++ rest =
      intChars v.mant ++ ('e' :: (intChars v.exp10 ++ rest)) := by
    simp
  rw [h1]
  have he : delimOk ('e' :: (intChars v.exp10 ++ rest)) := by
    intro c hc
    simp only [List.head?_cons, Option.some.injEq] at hc
    obtain rfl := hc
    decide
  unfold parseNum
  rw [readInt_intChars v.mant _ he]
  dsimp only
  rw [if_pos rfl, readInt_intChars v.exp10 rest hrest]

/-! ### JSON round-trip development: strings -/

theorem parseStringBody_escape (l : List Char) :
    ∀ fuel rest, (escapeList l).length + 1 ≤ fuel →
      parseStringBody fuel (escapeList l ++ '"' :: rest) = some (l, rest) := by
  induction l with
  | nil =>
    intro fuel rest hfuel
    obtain ⟨f, rfl⟩ : ∃ f, fuel = f + 1 := ⟨fuel - 1, by omega⟩
    rfl
  | cons c t ih =>
    intro fuel rest hfuel
    obtain ⟨f, rfl⟩ : ∃ f, fuel = f + 1 := ⟨fuel - 1, by omega⟩
    rw [escapeList, List.append_assoc]
    rw [escapeList] at hfuel
    have hlen : (escapeList t).length + 1 ≤ f := by
      have hce : 1 ≤ (escapeChar c).length := by
        unfold escapeChar
        split <;> try simp
        split <;> try simp
        split <;> try simp
        split <;> try simp
        split <;> try simp
        split <;> try simp
        split <;> try simp
        split <;> simp
      rw [List.length_append] at hfuel
      omega
    have iht := ih f rest hlen
    unfold escapeChar
    by_cases h1 : c = '"'
    · subst h1
      rw [if_pos rfl]
      simp [parseStringBody, consHelp, simpleUnescape, iht]
    · rw [if_neg h1]
      by_cases h2 : c = '\\'
      · subst h2
        rw [if_pos rfl]
        simp [parseStringBody, consHelp, simpleUnescape, iht]
      · rw [if_neg h2]
        by_cases h3 : c = '\n'
        · subst h3
          rw [if_pos rfl]
          simp [parseStringBody, consHelp, simpleUnescape, iht]
        · rw [if_neg h3]
          by_cases h4 : c = '\t'
          · subst h4
            rw [if_pos rfl]
            simp [parseStringBody, consHelp, simpleUnescape, iht]
          · rw [if_neg h4]
            by_cases h5 : c = '\r'
            · subst h5
              rw [if_pos rfl]
              simp [parseStringBody, consHelp, simpleUnescape, iht]
            · rw [if_neg h5]
              by_cases h6 : c = '\x08'
              · subst h6
                rw [if_pos rfl]
                simp [parseStringBody, consHelp, simpleUnescape, iht]
              · rw [if_neg h6]
                by_cases h7 : c = '\x0c'
                · subst h7
                  rw [if_pos rfl]
                  simp [parseStringBody, consHelp, simpleUnescape, iht]
                · rw [if_neg h7]
                  by_cases h8 : c.toNat < 32
                  · rw [if_pos h8]
                    simp [parseStringBody, consHelp,
                      show hexVal '0' = some 0 from rfl,
                      hexVal_hexChar _ (show c.toNat / 16 < 16 by omega),
                      hexVal_hexChar _ (show c.toNat % 16 < 16 by omega), iht]
                    have hn : c.toNat / 16 * 16 + c.toNat % 16 = c.toNat := by omega
                    rw [hn, Char.ofNat_toNat]
                  · rw [if_neg h8]
                    simp [parseStringBody, consHelp, h1, h2, iht]

/-! ### JSON round-trip development: values -/

theorem serializeNum_head (v : PyFloat) :
    ∃ c t, serializeNum v = c :: t ∧ (c = '-' ∨ c.isDigit = true) := by
  unfold serializeNum intChars
  by_cases hneg : v.mant < 0
  · rw [if_pos hneg]
    exact ⟨'-', _, rfl, Or.inl rfl⟩
  · rw [if_neg hneg]
    obtain ⟨c, t, hct⟩ : ∃ c t, natChars v.mant.natAbs = c :: t := by
      cases hnc : natChars v.mant.natAbs with
      | nil => exact absurd hnc (natChars_ne_nil _)
      | cons c t => exact ⟨c, t, rfl⟩
    refine ⟨c, t ++ 'e' :: intChars v.exp10, ?_, Or.inr ?_⟩
    · rw [hct]
      rfl
    · refine natChars_digits v.mant.natAbs c ?_
      rw [hct]
      simp

theorem serializeJson_ne_nil (j : Json) : serializeJson j ≠ [] := by
  cases j with
  | null => simp [serializeJson]
  | str s => simp [serializeJson]
  | num v =>
    obtain ⟨c, t, hct, -⟩ := serializeNum_head v
    simp [serializeJson, hct]
  | arr items => cases items <;> simp [serializeJson]
  | obj fields => cases fields <;> simp [serializeJson]

theorem serializeJson_head (j : Json) :
    ∃ c t, serializeJson j = c :: t ∧ ¬(c = ']') ∧ ¬(c = '\x7d') := by
  cases j with
  | null => exact ⟨'n', ['u', 'l', 'l'], by simp [serializeJson], by decide, by decide⟩
  | str s =>
    exact ⟨'"', escapeList s.data ++ ['"'], by simp [serializeJson], by decide, by decide⟩
  | num v =>
    obtain ⟨c, t, hct, hc⟩ := serializeNum_head v
    refine ⟨c, t, by simp [serializeJson, hct], ?_, ?_⟩
    · rcases hc with rfl | hd
      · decide
      · intro h
        rw [h] at hd
        exact absurd hd (by decide)
    · rcases hc with rfl | hd
      · decide
      · intro h
        rw [h] at hd
        exact absurd hd (by decide)
  | arr items =>
    cases items with
    | nil => exact ⟨'[', [']'], by simp [serializeJson], by decide, by decide⟩
    | cons x xs =>
      exact ⟨'[', serializeItems (x :: xs) ++ [']'], by simp [serializeJson],
        by decide, by decide⟩
  | obj fields =>
    cases fields with
    | nil => exact ⟨'\x7b', ['\x7d'], by simp [serializeJson], by decide, by decide⟩
    | cons f fs =>
      exact ⟨'\x7b', serializeFields (f :: fs) ++ ['\x7d'], by simp [serializeJson],
        by decide, by decide⟩

theorem serializeItems_head (x : Json) (xs : List Json) (c : Char) (t : List Char)
    (hct : serializeJson x = c :: t) :
    ∃ t2, serializeItems (x :: xs) = c :: t2 := by
  cases xs with
  | nil => exact ⟨t, by simp [serializeItems, hct]⟩
  | cons y ys =>
    exact ⟨t ++ ',' :: serializeItems (y :: ys), by simp [serializeItems, hct]⟩

theorem delimOk_nil : delimOk [] := fun c hc => absurd hc (by simp)

theorem delimOk_cons (c : Char) (xs : List Char) (h : c.isDigit = false) :
    delimOk (c :: xs) := by
  intro d hd
  simp only [List.head?_cons, Option.some.injEq] at hd
  obtain rfl := hd
  exact h

/-- Round trip: parsing a serialized JSON value (followed by any
non-digit continuation) returns exactly the value and the continuation,
given fuel at least the serialized length. -/
theorem parse_serialize (fuel : Nat) :
    (∀ j rest, (serializeJson j).length ≤ fuel → delimOk rest →
      parseJson fuel (serializeJson j ++ rest) = some (j, rest)) ∧
    (∀ l rest, l ≠ [] → (serializeItems l).length + 1 ≤ fuel →
      parseItems fuel (serializeItems l ++ ']' :: rest) = some (l, rest)) ∧
    (∀ fs rest, fs ≠ [] → (serializeFields fs).length + 1 ≤ fuel →
      parseFields fuel (serializeFields fs ++ '\x7d' :: rest) = some (fs, rest)) := by
  induction fuel with
  | zero =>
    refine ⟨?_, ?_, ?_⟩
    · intro j rest hlen _
      have hpos : 0 < (serializeJson j).length :=
        List.length_pos.mpr (serializeJson_ne_nil j)
      omega
    · intro l rest _ hlen
      omega
    · intro fs rest _ hlen
      omega
  | succ fuel ih =>
    obtain ⟨ihJ, ihI, ihF⟩ := ih
    refine ⟨?_, ?_, ?_⟩
    · intro j rest hlen hrest
      cases j with
      | null => simp [serializeJson, parseJson, parseNull]
      | str s =>
        have heq : serializeJson (Json.str s) ++ rest =
            '"' :: (escapeList s.data ++ ('"' :: rest)) := by
          simp [serializeJson]
        have hesc : (escapeList s.data).length + 1 ≤ fuel := by
          have : (serializeJson (Json.str s)).length = (escapeList s.data).length + 2 := by
            simp [serializeJson]
          omega
        rw [heq, parseJson]
        rw [if_neg (by decide : ¬('"' : Char) = 'n'), if_pos rfl,
          parseStringBody_escape s.data fuel rest hesc]
        rfl
      | num v =>
        obtain ⟨c, t, hct, hc⟩ := serializeNum_head v
        have hc1 : ¬(c = 'n') := by
          rcases hc with rfl | hd
          · decide
          · intro h
            rw [h] at hd
            exact absurd hd (by decide)
        have hc2 : ¬(c = '"') := by
          rcases hc with rfl | hd
          · decide
          · intro h
            rw [h] at hd
            exact absurd hd (by decide)
        have hc3 : ¬(c = '[') := by
          rcases hc with rfl | hd
          · decide
          · intro h
            rw [h] at hd
            exact absurd hd (by decide)
        have hc4 : ¬(c = '\x7b') := by
          rcases hc with rfl | hd
          · decide
          · intro h
            rw [h] at hd
            exact absurd hd (by decide)
        have heq2 : serializeNum v ++ rest = c :: (t ++ rest) := by
          rw [hct]
          rfl
        have heq : serializeJson (Json.num v) ++ rest = c :: (t ++ rest) := by
          rw [← heq2]
          simp [serializeJson]
        rw [heq, parseJson]
        rw [if_neg hc1, if_neg hc2, if_neg hc3, if_neg hc4, ← heq2]
        exact parseNum_serializeNum v rest hrest
      | arr items =>
        cases items with
        | nil => simp [serializeJson, parseJson, parseArrTail]
        | cons x xs =>
          obtain ⟨c, t, hct, hcc1, -⟩ := serializeJson_head x
          obtain ⟨t2, hct2⟩ := serializeItems_head x xs c t hct
          have heq : serializeJson (Json.arr (x :: xs)) ++ rest =
              '[' :: (c :: (t2 ++ (']' :: rest))) := by
            simp [serializeJson, hct2]
          have hlI : (serializeItems (x :: xs)).length + 1 ≤ fuel := by
            have : (serializeJson (Json.arr (x :: xs))).length =
                (serializeItems (x :: xs)).length + 2 := by
              simp [serializeJson]
            omega
          have hback : c :: (t2 ++ (']' :: rest)) =
              serializeItems (x :: xs) ++ (']' :: rest) := by
            rw [hct2]
            rfl
          rw [heq, parseJson]
          rw [if_neg (by decide : ¬('[' : Char) = 'n'),
            if_neg (by decide : ¬('[' : Char) = '"'), if_pos rfl, parseArrTail]
          rw [if_neg hcc1, hback, ihI (x :: xs) rest (by simp) hlI]
          rfl
      | obj fields =>
        cases fields with
        | nil => simp [serializeJson, parseJson, parseObjTail]
        | cons f fs =>
          obtain ⟨k, j0⟩ := f
          have hkey : ∃ t2, serializeFields ((k, j0) :: fs) = '"' :: t2 := by
            cases fs with
            | nil =>
              exact ⟨escapeList k.data ++ ('"' :: ':' :: serializeJson j0),
                by simp [serializeFields]⟩
            | cons f2 fs2 =>
              exact ⟨escapeList k.data ++
                ('"' :: ':' :: (serializeJson j0 ++ ',' :: serializeFields (f2 :: fs2))),
                by simp [serializeFields]⟩
          obtain ⟨t2, hct2⟩ := hkey
          have heq : serializeJson (Json.obj ((k, j0) :: fs)) ++ rest =
              '\x7b' :: ('"' :: (t2 ++ ('\x7d' :: rest))) := by
            simp [serializeJson, hct2]
          have hlF : (serializeFields ((k, j0) :: fs)).length + 1 ≤ fuel := by
            have : (serializeJson (Json.obj ((k, j0) :: fs))).length =
                (serializeFields ((k, j0) :: fs)).length + 2 := by
              simp [serializeJson]
            omega
          have hback : ('"' : Char) :: (t2 ++ ('\x7d' :: rest)) =
              serializeFields ((k, j0) :: fs) ++ ('\x7d' :: rest) := by
            rw [hct2]
            rfl
          rw [heq, parseJson]
          rw [if_neg (by decide : ¬('\x7b' : Char) = 'n'),
            if_neg (by decide : ¬('\x7b' : Char) = '"'),
            if_neg (by decide : ¬('\x7b' : Char) = '['), if_pos rfl, parseObjTail]
          rw [if_neg (by decide : ¬('"' : Char) = '\x7d'), hback,
            ihF ((k, j0) :: fs) rest (by simp) hlF]
          rfl
    · intro l rest hne hlen
      cases l with
      | nil => exact absurd rfl hne
      | cons x xs =>
        rw [parseItems]
        cases xs with
        | nil =>
          have heq : serializeItems [x] ++ (']' :: rest) =
              serializeJson x ++ (']' :: rest) := by
            simp [serializeItems]
          have hlx : (serializeJson x).length ≤ fuel := by
            have : (serializeItems [x]).length = (serializeJson x).length := by
              simp [serializeItems]
            omega
          rw [heq, ihJ x (']' :: rest) hlx (delimOk_cons ']' rest (by decide)),
            parseItemsCont]
          rw [if_neg (by decide : ¬(']' : Char) = ','), if_pos rfl]
        | cons y ys =>
          have heq : serializeItems (x :: y :: ys) ++ (']' :: rest) =
              serializeJson x ++ (',' :: (serializeItems (y :: ys) ++ (']' :: rest))) := by
            simp [serializeItems]
          have hlsum : (serializeItems (x :: y :: ys)).length =
              (serializeJson x).length + 1 + (serializeItems (y :: ys)).length := by
            simp [serializeItems]
            omega
          have hlx : (serializeJson x).length ≤ fuel := by omega
          have hly : (serializeItems (y :: ys)).length + 1 ≤ fuel := by
            have hxpos : 0 < (serializeJson x).length :=
              List.length_pos.mpr (serializeJson_ne_nil x)
            omega
          rw [heq, ihJ x (',' :: (serializeItems (y :: ys) ++ (']' :: rest))) hlx
            (delimOk_cons ',' _ (by decide)), parseItemsCont]
          rw [if_pos rfl, ihI (y :: ys) rest (by simp) hly]
          rfl
    · intro fs rest hne hlen
      cases fs with
      | nil => exact absurd rfl hne
      | cons kj fs' =>
        obtain ⟨k, j⟩ := kj
        cases fs' with
        | nil =>
          have heq : serializeFields [(k, j)] ++ ('\x7d' :: rest) =
              '"' :: (escapeList k.data ++
                ('"' :: (':' :: (serializeJson j ++ ('\x7d' :: rest))))) := by
            simp [serializeFields]
          have hlsum : (serializeFields [(k, j)]).length =
              (escapeList k.data).length + 3 + (serializeJson j).length := by
            simp [serializeFields]
            omega
          have hlk : (escapeList k.data).length + 1 ≤ fuel := by omega
          have hlj : (serializeJson j).length ≤ fuel := by omega
          rw [heq, parseFields]
          rw [if_pos rfl,
            parseStringBody_escape k.data fuel
              (':' :: (serializeJson j ++ ('\x7d' :: rest))) hlk,
            parseFieldsKey]
          rw [if_pos rfl, ihJ j ('\x7d' :: rest) hlj (delimOk_cons _ _ (by decide)),
            parseFieldsVal]
          rw [if_neg (by decide : ¬('\x7d' : Char) = ','), if_pos rfl]
        | cons kj2 fs2 =>
          have heq : serializeFields ((k, j) :: kj2 :: fs2) ++ ('\x7d' :: rest) =
              '"' :: (escapeList k.data ++
                ('"' :: (':' :: (serializeJson j ++
                  (',' :: (serializeFields (kj2 :: fs2) ++ ('\x7d' :: rest))))))) := by
            simp [serializeFields]
          have hlsum : (serializeFields ((k, j) :: kj2 :: fs2)).length =
              (escapeList k.data).length + 4 + (serializeJson j).length +
                (serializeFields (kj2 :: fs2)).length := by
            simp [serializeFields]
            omega
          have hlk : (escapeList k.data).length + 1 ≤ fuel := by omega
          have hlj : (serializeJson j).length ≤ fuel := by omega
          have hlf : (serializeFields (kj2 :: fs2)).length + 1 ≤ fuel := by omega
          rw [heq, parseFields]
          rw [if_pos rfl,
            parseStringBody_escape k.data fuel
              (':' :: (serializeJson j ++
                (',' :: (serializeFields (kj2 :: fs2) ++ ('\x7d' :: rest))))) hlk,
            parseFieldsKey]
          rw [if_pos rfl, ihJ j
            (',' :: (serializeFields (kj2 :: fs2) ++ ('\x7d' :: rest))) hlj
            (delimOk_cons _ _ (by decide)), parseFieldsVal]
          rw [if_pos rfl, ihF (kj2 :: fs2) rest (by simp) hlf]
          rfl

/-- Serializing any JSON value and parsing the string back returns the
value exactly. -/
theorem Json.parse_serialize_id (j : Json) : Json.parse (Json.serialize j) = some j := by
  have h := (parse_serialize ((serializeJson j).length + 1)).1 j [] (by omega) delimOk_nil
  rw [List.append_nil] at h
  show (match parseJson ((serializeJson j).length + 1) (serializeJson j) with
    | some (j, []) => some j
    | _ => none) = some j
  rw [h]

theorem segment_from_dict_to_dict (s : SegmentResult) :
    SegmentResult.from_dict (SegmentResult.to_dict s) = some s := by
  cases s with
  | mk st en t i a n => cases a <;> cases n <;> rfl

theorem decodeSegs_map (l : List SegmentResult) :
    decodeSegs (l.map SegmentResult.to_dict) = some l := by
  induction l with
  | nil => rfl
  | cons s t ih => simp [decodeSegs, segment_from_dict_to_dict s, ih]

theorem result_from_dict_to_dict (r : TranscriptionResult) :
    TranscriptionResult.from_dict (TranscriptionResult.to_dict r) = some r := by
  cases r with
  | mk ap t i segs lg lc dur ms il =>
    cases lc <;> cases dur <;>
      simp [TranscriptionResult.to_dict, TranscriptionResult.from_dict, optNum, decodeSegs_map]

/-- C9: converting a result to its structured mapping, serializing that
to a JSON string and parsing the JSON back reproduces the mapping
exactly; every field (the path as a string, exact decimal floats, absent
optionals as null, the segments in order with their six keys) is
recoverable from the mapping; the documented keys are present in order;
and every character other than the quote, the backslash and control
characters — all non-ASCII IPA symbols included — is serialized
unescaped. -/
theorem to_dict_json_roundtrip (r : TranscriptionResult) :
    Json.parse (TranscriptionResult.to_json r) = some (TranscriptionResult.to_dict r) ∧
    TranscriptionResult.from_dict (TranscriptionResult.to_dict r) = some r ∧
    Json.keys (TranscriptionResult.to_dict r) =
      ["audio_path", "text", "ipa", "segments", "language", "language_confidence",
       "duration", "model_size", "ipa_language"] ∧
    (∀ s : SegmentResult, Json.keys (SegmentResult.to_dict s) =
      ["start", "end", "text", "ipa", "avg_logprob", "no_speech_prob"]) ∧
    (∀ c : Char, 32 ≤ c.toNat → ¬(c = '"') → ¬(c = '\\') → escapeChar c = [c]) := by
  refine ⟨Json.parse_serialize_id (TranscriptionResult.to_dict r),
    result_from_dict_to_dict r, rfl, fun s => rfl, ?_⟩
  intro c h32 hq hb
  have hn : ¬(c = '\n') := fun h => by
    rw [h] at h32
    exact absurd h32 (by decide)
  have ht : ¬(c = '\t') := fun h => by
    rw [h] at h32
    exact absurd h32 (by decide)
  have hr : ¬(c = '\r') := fun h => by
    rw [h] at h32
    exact absurd h32 (by decide)
  have hb8 : ¬(c = '\x08') := fun h => by
    rw [h] at h32
    exact absurd h32 (by decide)
  have hf : ¬(c = '\x0c') := fun h => by
    rw [h] at h32
    exact absurd h32 (by decide)
  unfold escapeChar
  rw [if_neg hq, if_neg hb, if_neg hn, if_neg ht, if_neg hr, if_neg hb8, if_neg hf,
    if_neg (by omega)]

/-- C9 witness: the round-trip theorem applied to the demo result, and
the unescaped serialization of the IPA character `ʃ`. -/
theorem to_dict_json_roundtrip_witness :
    Json.parse (TranscriptionResult.to_json demoResult) =
      some (TranscriptionResult.to_dict demoResult) ∧
    escapeChar 'ʃ' = ['ʃ'] := by
  have h := to_dict_json_roundtrip demoResult
  exact ⟨h.1, h.2.2.2.2 'ʃ' (by decide) (by decide) (by decide)⟩

/-- C10 witness: the override `"EN_US"` on the demo run with a backend
that echoes the language code it receives: the result records `"EN_US"`
verbatim and the backend observed `"EN_US"` for both segments. -/
theorem transcribe_ipa_override_verbatim_witness :
    demoResultOverride.ipa_language = "EN_US" ∧
    demoResultOverride.segments.map (fun s => s.ipa) = ["EN_US", "EN_US"] := by
  have h := transcribe_ipa_override_verbatim alwaysExists demoEngine langBackend
    "audio.wav" "small" none "EN_US" "cpu" none true demoResultOverride
    (by decide) rfl
  exact ⟨h.1, by decide⟩

end SpeechToIpa
